import Mathlib

/-!
Verification development for the `nbudata` repository
(`src/nbudata/exchange.py`, `src/nbudata/gbonds.py`, `src/nbudata/web_exchange.py`).

The Python source is shallowly embedded: pure functions become Lean
functions; the ambient inputs of stateful code (the HTTP transport, the
current day `date.today()`) become explicit parameters; fallible code
returns `Option`/`Except`.  Decimal amounts in the JSON payloads are
modelled as exact rationals (`Rat`); the question of the binary
floating-point representation pandas actually sums with is outside this
embedding and is discussed where relevant.
-/

set_option linter.unusedVariables false

/-- A Python `datetime.date`: a calendar date with numeric year, month, day.
Also used to model the *content* of the raw `"DD.MM.YYYY"` date strings the
upstream NBU service sends (the string `"05.01.2026"` is modelled as
`⟨2026, 1, 5⟩`). -/
structure PyDate where
  year : Nat
  month : Nat
  day : Nat
deriving DecidableEq, Repr

/-- Chronological strict order on calendar dates (year, then month, then day).
This is the order `datetime.date` comparisons and comparisons of
`pd.to_datetime(...).dt.date` values use. -/
def chronoLt (a b : PyDate) : Prop :=
  a.year < b.year ∨ (a.year = b.year ∧
    (a.month < b.month ∨ (a.month = b.month ∧ a.day < b.day)))

/-- Chronological `≤` on calendar dates. -/
def chronoLe (a b : PyDate) : Prop :=
  a.year < b.year ∨ (a.year = b.year ∧
    (a.month < b.month ∨ (a.month = b.month ∧ a.day ≤ b.day)))

instance (a b : PyDate) : Decidable (chronoLt a b) := by
  unfold chronoLt; exact inferInstance

instance (a b : PyDate) : Decidable (chronoLe a b) := by
  unfold chronoLe; exact inferInstance

/-- Zero-padded two-digit decimal rendering, as `strftime` `%m` / `%d`
produce for the in-range values `0 ≤ n ≤ 99`. -/
def pad2 (n : Nat) : String :=
  String.mk [Nat.digitChar (n / 10 % 10), Nat.digitChar (n % 10)]

/-- Zero-padded four-digit decimal rendering, as `strftime` `%Y` produces
for the years `1000 ≤ n ≤ 9999` that matter here. -/
def pad4 (n : Nat) : String :=
  String.mk [Nat.digitChar (n / 1000 % 10), Nat.digitChar (n / 100 % 10),
    Nat.digitChar (n / 10 % 10), Nat.digitChar (n % 10)]

/-- `date.strftime("%Y%m%d")`: the `YYYYMMDD` serialization used by
`RequestBuilder.build` for the `start` and `end` parameters. -/
def strftimeYYYYMMDD (d : PyDate) : String :=
  pad4 d.year ++ pad2 d.month ++ pad2 d.day

/-- A value stored in the `url_params` dict of `RequestBuilder.build`:
either a string or a Python boolean (the `json` parameter's value is the
Python `True`). -/
inductive ParamVal where
  | str (s : String)
  | bool (b : Bool)
deriving DecidableEq, Repr

/-- `exchange.py` `ResponseAttributes.exchange_date = 'exchangedate'`. -/
def ResponseAttributes.exchange_date : String := "exchangedate"

/-- The `RequestBuilder` dataclass of `exchange.py`, with its field
defaults (`is_sort_desc = True`, `is_json_format = True`, fixed `url`). -/
structure RequestBuilder where
  date_from : PyDate
  date_to : PyDate
  currency : String
  sort_by : String
  is_sort_desc : Bool := true
  url : String := "https://bank.gov.ua/NBU_Exchange/exchange_site"
  is_json_format : Bool := true
deriving DecidableEq, Repr

/-- `RequestBuilder.build`: the url together with its parameter dict,
modelled as an association list in insertion order. -/
def RequestBuilder.build (rb : RequestBuilder) : String × List (String × ParamVal) :=
  let url_params : List (String × ParamVal) :=
    [("start", ParamVal.str (strftimeYYYYMMDD rb.date_from)),
     ("end", ParamVal.str (strftimeYYYYMMDD rb.date_to)),
     ("valcode", ParamVal.str rb.currency),
     ("sort", ParamVal.str rb.sort_by),
     ("order", ParamVal.str (if rb.is_sort_desc then "desc" else "asc"))]
  let url_params :=
    if rb.is_json_format then url_params ++ [("json", ParamVal.bool true)] else url_params
  (rb.url, url_params)

/-- An HTTP response as seen by the two fetchers: status code, reason
phrase, and the JSON body the `res.json()` call would yield.  `α` is the
shape of the parsed body. -/
structure HttpResponse (α : Type) where
  status_code : Nat
  reason : String
  json : α
deriving DecidableEq, Repr

/-- The request `get_rates` issues: `RequestBuilder` applied to the
caller's currency and period, with `sort_by` fixed to
`ResponseAttributes.exchange_date` and every other field left at its
dataclass default. -/
def get_rates_query (currency : String) (from_date to_date : PyDate) :
    String × List (String × ParamVal) :=
  RequestBuilder.build
    { date_from := from_date
      date_to := to_date
      currency := currency
      sort_by := ResponseAttributes.exchange_date }

/-- `exchange.get_rates`.  The HTTP transport is passed explicitly as the
function `net` from (url, params) to the response.  Returns the data
result (`res.json()` on status 200, Python `None` otherwise) together
with the list of console messages printed, each modelled as the
`(reason, status_code)` pair interpolated into
`Can't get data. Reason: ... Status: ...`. -/
def get_rates {α : Type} (net : String → List (String × ParamVal) → HttpResponse α)
    (currency : String) (from_date to_date : PyDate) :
    Option α × List (String × Nat) :=
  let url_req := get_rates_query currency from_date to_date
  let res := net url_req.1 url_req.2
  if res.status_code = 200 then (some res.json, [])
  else (none, [(res.reason, res.status_code)])

/-- `gbonds.URL_JSON`. -/
def URL_JSON : String := "https://bank.gov.ua/depo_securities?json"

/-- `gbonds.get_json`, applied to the response the GET to `URL_JSON`
produced.  Same success/failure handling as `get_rates`: the body on
status 200, otherwise `None` plus a printed `(reason, status_code)`
message. -/
def get_json {α : Type} (res : HttpResponse α) : Option α × List (String × Nat) :=
  if res.status_code = 200 then (some res.json, [])
  else (none, [(res.reason, res.status_code)])

/-- One entry of a bond's `payments` array in the `depo_securities` JSON:
`{pay_date, pay_type, pay_val}`.  Every field is `Option`al because a
JSON object may lack a key; a missing value surfaces as NaN once the
record is loaded into a DataFrame.  `pay_date` holds the content of the
raw zero-padded `"DD.MM.YYYY"` date string; the amount `pay_val` is
modelled as an exact rational. -/
structure PaymentEvent where
  pay_date : Option PyDate
  pay_type : Option Nat
  pay_val : Option Rat
deriving DecidableEq, Repr

/-- A bond record of the `depo_securities` JSON, restricted to the fields
the core logic reads: `cpcode` (the ISIN, read by `filter_isins`),
`val_code` (the bond-level currency code, a `groupby` key in
`show_payments`) and the nested `payments` array.  The remaining fields
(`nominal`, `auk_proc`, `pgs_date`, ...) are never read by the filter and
are dropped by the aggregation, so they are omitted from the embedding. -/
structure BondRecord where
  cpcode : Option String
  val_code : Option String
  payments : List PaymentEvent
deriving DecidableEq, Repr

/-- The body of the list comprehension in `gbonds.filter_isins`:
`[item for item in data if item['cpcode'] in isins]`, walking the records
left to right.  Reading `item['cpcode']` on a record without that key
raises `KeyError`, modelled as the `Except` error case. -/
def filterIsinsGo (isins : List String) : List BondRecord → Except String (List BondRecord)
  | [] => Except.ok []
  | b :: rest =>
    match b.cpcode with
    | none => Except.error "KeyError: cpcode"
    | some c =>
      match filterIsinsGo isins rest with
      | Except.error e => Except.error e
      | Except.ok r => Except.ok (if c ∈ isins then b :: r else r)

/-- `gbonds.filter_isins`.  The Python truthiness test `if isins:` is
false both for `None` and for an empty list, in which case the input is
returned unchanged without ever touching `cpcode`. -/
def filter_isins (data : List BondRecord) (isins : Option (List String)) :
    Except String (List BondRecord) :=
  match isins with
  | none => Except.ok data
  | some l => if l = [] then Except.ok data else filterIsinsGo l data

/-- The boolean membership test the filtered output satisfies: the record
has a `cpcode` and it is in the allow-list. -/
def cpcodeMem (isins : List String) (b : BondRecord) : Bool :=
  match b.cpcode with
  | some c => decide (c ∈ isins)
  | none => false

/-! ## The payment-schedule aggregation (`gbonds.show_payments`)

The pipeline is
`df.explode(payments)` → `df[payments].apply(pd.Series)` + `concat` →
`groupby([pay_date, val_code], as_index=False).agg(pay_per_bond=(pay_val, 'sum'))` →
`pd.to_datetime(...).dt.date` → optional `df[pay_date] >= date.today()`
filter → `df.sort_values(by=[pay_date, val_code])` **whose result is
discarded** (it is not assigned back to `df`), so the printed frame keeps
the `groupby` key order.

At `groupby` time `pay_date` is still the raw `"DD.MM.YYYY"` string from
the JSON, so the (default, ascending) key sort is lexicographic on that
string, i.e. on the components in the order (day, month, year); only
afterwards is the column converted to calendar dates.  `groupby` drops
rows whose key contains NaN (missing `pay_date` or `val_code`), and the
`'sum'` aggregation skips NaN amounts. -/

/-- One exploded row: the bond's columns joined with one payment's
columns. -/
abbrev AggRow := BondRecord × PaymentEvent

/-- The composite grouping key `(pay_date, val_code)`. -/
abbrev AggKey := PyDate × String

/-- `df.explode(payments)` for one bond: one row per payment event, and —
as pandas does for an empty list — a single all-NaN payment row when the
`payments` array is empty. -/
def explodePayments (b : BondRecord) : List AggRow :=
  match b.payments with
  | [] => [(b, ⟨none, none, none⟩)]
  | p :: ps => (p :: ps).map (fun q => (b, q))

/-- The grouping key of a row, or `none` when either key column is NaN
(such rows are dropped by `groupby`'s default `dropna=True`). -/
def rowKey? (r : AggRow) : Option AggKey :=
  match r.2.pay_date, r.1.val_code with
  | some d, some c => some (d, c)
  | _, _ => none

/-- Strict lexicographic order of the raw `"DD.MM.YYYY"` strings: the
zero-padded rendering makes string comparison compare day, then month,
then year. -/
def rawDateLt (a b : PyDate) : Prop :=
  a.day < b.day ∨ (a.day = b.day ∧
    (a.month < b.month ∨ (a.month = b.month ∧ a.year < b.year)))

instance (a b : PyDate) : Decidable (rawDateLt a b) := by
  unfold rawDateLt; exact inferInstance

/-- The strict order in which `groupby(sort=True)` arranges the composite
keys: by the raw date string, then by the currency-code string. -/
def aggKeyLt (a b : AggKey) : Prop :=
  rawDateLt a.1 b.1 ∨ (a.1 = b.1 ∧ a.2 < b.2)

instance (a b : AggKey) : Decidable (aggKeyLt a b) := by
  unfold aggKeyLt; exact inferInstance

/-- Insert a key into a strictly `aggKeyLt`-sorted, duplicate-free list,
keeping it sorted and duplicate-free. -/
def insertKey (k : AggKey) : List AggKey → List AggKey
  | [] => [k]
  | x :: xs =>
    if k = x then x :: xs
    else if aggKeyLt k x then k :: x :: xs
    else x :: insertKey k xs

/-- The sorted list of distinct group keys, as `groupby(sort=True)`
produces. -/
def sortDedupKeys : List AggKey → List AggKey
  | [] => []
  | k :: ks => insertKey k (sortDedupKeys ks)

/-- The `'sum'` aggregate of `pay_val` over the rows of one group; NaN
amounts are skipped (pandas `skipna`), and an all-NaN or empty group sums
to `0`. -/
def groupTotal (rows : List AggRow) (k : AggKey) : Rat :=
  ((rows.filter (fun r => decide (rowKey? r = some k))).filterMap
    (fun r => r.2.pay_val)).sum

/-- One row of the printed payment ledger:
`pay_date, val_code, pay_per_bond`. -/
structure LedgerRow where
  pay_date : PyDate
  val_code : String
  pay_per_bond : Rat
deriving DecidableEq, Repr

/-- The grouped-and-aggregated frame, rows in `groupby` key order. -/
def groupRows (rows : List AggRow) : List LedgerRow :=
  (sortDedupKeys (rows.filterMap rowKey?)).map
    (fun k => ⟨k.1, k.2, groupTotal rows k⟩)

/-- `gbonds.show_payments`, from the point where the bond records are in
hand (after `filter_isins(get_json(), isins)`), returning the frame that
is printed.  `today` is the ambient `date.today()` passed explicitly.
The final `df.sort_values(by=[pay_date, val_code])` of the source is a
no-op — its result is not assigned to `df` — so the output keeps the
order produced by `groupby` on the raw date strings. -/
def show_payments (bonds : List BondRecord) (include_paid : Bool) (today : PyDate) :
    List LedgerRow :=
  let df := groupRows (bonds.flatMap explodePayments)
  if include_paid then df
  else df.filter (fun r => decide (chronoLe today r.pay_date))

/-- Whether a ledger is strictly ascending in the composite key (calendar
date, then currency code), checked on adjacent rows.  Strictness makes
this exactly the claim "sorted ascending with no duplicate keys". -/
def ledgerSortedChrono : List LedgerRow → Bool
  | [] => true
  | [_] => true
  | a :: b :: rest =>
    (decide (chronoLt a.pay_date b.pay_date ∨
      (a.pay_date = b.pay_date ∧ a.val_code < b.val_code))) &&
    ledgerSortedChrono (b :: rest)

/-- The spec-side right-hand side of the conservation law: the sum of
`amount_per_bond` over every `PaymentEvent` of every bond (a missing
amount counting as `0`). -/
def totalCashFlow (bonds : List BondRecord) : Rat :=
  (bonds.map (fun b => (b.payments.map (fun p => p.pay_val.getD 0)).sum)).sum

/-- Well-formedness of a bond for the aggregation: the bond has a
currency code and each of its payment events has a date and an amount. -/
def wellFormedBond (b : BondRecord) : Prop :=
  b.val_code.isSome = true ∧
    ∀ p ∈ b.payments, p.pay_date.isSome = true ∧ p.pay_val.isSome = true

instance (b : BondRecord) : Decidable (wellFormedBond b) := by
  unfold wellFormedBond; exact inferInstance

/-- The part of the exploded rows that the grouped frame depends on: for
each row that survives `groupby`'s NaN-key dropping, its key paired with
its amount (a NaN amount contributing `0`, as the skipping sum makes it). -/
def ledgerView (rows : List AggRow) : List (AggKey × Rat) :=
  rows.filterMap (fun r => (rowKey? r).map (fun k => (k, r.2.pay_val.getD 0)))

/-- Sum of the values of the view pairs carrying a given key. -/
def pairGroupSum (ps : List (AggKey × Rat)) (k : AggKey) : Rat :=
  ((ps.filter (fun p => decide (p.1 = k))).map (fun p => p.2)).sum

/-- Remove from a bond the payment events that lack a `pay_date`. -/
def scrubDates (b : BondRecord) : BondRecord :=
  { b with payments := b.payments.filter (fun p => p.pay_date.isSome) }

/-- Replace a missing `pay_val` by an explicit `0` in each payment event
of a bond. -/
def fillMissingVals (b : BondRecord) : BondRecord :=
  { b with payments := b.payments.map (fun p => { p with pay_val := some (p.pay_val.getD 0) }) }

/-! ## Concrete inputs used by counterexamples and witnesses -/

/-- A 503 response to either endpoint (body shape: list of numbers,
irrelevant to the fetch logic). -/
def resp503 : HttpResponse (List Nat) :=
  { status_code := 503, reason := "Service Unavailable", json := [] }

/-- A 404 response with a different reason phrase. -/
def resp404 : HttpResponse (List Nat) :=
  { status_code := 404, reason := "Not Found", json := [] }

/-- One bond paying `100` UAH on raw date `"01.01.2026"` and `50` UAH on
raw date `"02.02.2025"`.  The raw strings sort as
`"01.01.2026" < "02.02.2025"`, while chronologically 2025-02-02 precedes
2026-01-01; day and month coincide in each date, so the parsed calendar
dates do not depend on pandas' day-first/month-first choice when it
converts the column. -/
def C1bonds : List BondRecord :=
  [{ cpcode := some "UA4000000001", val_code := some "UAH",
     payments := [⟨some ⟨2026, 1, 1⟩, some 1, some 100⟩,
                  ⟨some ⟨2025, 2, 2⟩, some 2, some 50⟩] }]

/-- One bond whose first payment event lacks the required `pay_date`
field (amount `10`), followed by a well-formed event of `50` UAH on
2025-06-01. -/
def C4bonds : List BondRecord :=
  [{ cpcode := some "UA4000000001", val_code := some "UAH",
     payments := [⟨none, some 1, some 10⟩,
                  ⟨some ⟨2025, 6, 1⟩, some 1, some 50⟩] }]

/-- Two bonds both paying UAH on 2025-06-01 (`100` and `50`), used to
witness the conservation law on an input where two rows merge. -/
def C2bonds : List BondRecord :=
  [{ cpcode := some "UA4000000001", val_code := some "UAH",
     payments := [⟨some ⟨2025, 6, 1⟩, some 1, some 100⟩] },
   { cpcode := some "UA4000000002", val_code := some "UAH",
     payments := [⟨some ⟨2025, 6, 1⟩, some 1, some 50⟩] },
   { cpcode := some "UA4000000003", val_code := some "UAH", payments := [] }]

/-- Records `[UA1, UA2]` of the spec's Scenario 4. -/
def C7records : List BondRecord :=
  [{ cpcode := some "UA1", val_code := some "UAH",
     payments := [⟨some ⟨2025, 6, 1⟩, some 1, some 100⟩] },
   { cpcode := some "UA2", val_code := some "USD", payments := [] }]

/-- A record list whose second record lacks the `cpcode` field. -/
def C10records : List BondRecord :=
  [{ cpcode := some "UA1", val_code := some "UAH", payments := [] },
   { cpcode := none, val_code := some "UAH", payments := [] }]

/-! ## Theorems -/

theorem chronoLe_iff_not_chronoLt (a b : PyDate) : chronoLe a b ↔ ¬ chronoLt b a := by
  unfold chronoLe chronoLt
  omega

theorem pad2_length (n : Nat) : (pad2 n).length = 2 := rfl

theorem pad4_length (n : Nat) : (pad4 n).length = 4 := rfl

theorem strftimeYYYYMMDD_length (d : PyDate) : (strftimeYYYYMMDD d).length = 8 := by
  unfold strftimeYYYYMMDD
  rw [String.length_append, String.length_append, pad4_length, pad2_length, pad2_length]

/-- C8: for every input, the parameter map built by `RequestBuilder.build`
contains all five base parameters, with `start` and `end` serialized as
(eight-character) `YYYYMMDD` strings, `order` equal to `"desc"` iff
`is_sort_desc` is true (`"asc"` otherwise), and `json=true` present
exactly when JSON format is requested. -/
theorem C8_build_parameter_map (rb : RequestBuilder) :
    (rb.build).2.lookup "start" = some (ParamVal.str (strftimeYYYYMMDD rb.date_from)) ∧
    (rb.build).2.lookup "end" = some (ParamVal.str (strftimeYYYYMMDD rb.date_to)) ∧
    (rb.build).2.lookup "valcode" = some (ParamVal.str rb.currency) ∧
    (rb.build).2.lookup "sort" = some (ParamVal.str rb.sort_by) ∧
    (rb.build).2.lookup "order" =
      some (ParamVal.str (if rb.is_sort_desc then "desc" else "asc")) ∧
    ((rb.build).2.lookup "order" = some (ParamVal.str "desc") ↔ rb.is_sort_desc = true) ∧
    (rb.build).2.lookup "json" =
      (if rb.is_json_format then some (ParamVal.bool true) else none) ∧
    (strftimeYYYYMMDD rb.date_from).length = 8 ∧
    (strftimeYYYYMMDD rb.date_to).length = 8 := by
  cases hd : rb.is_sort_desc <;> cases hj : rb.is_json_format <;>
    simp [RequestBuilder.build, List.lookup, hd, hj, strftimeYYYYMMDD_length]

/-- C9: the query `get_rates` issues is fixed apart from the currency and
period: its `sort` parameter is always `"exchangedate"`, its `order`
parameter is always `"desc"`, and `json=true` is always present —
`get_rates` exposes no way to choose a different sort field or ascending
order, whatever the caller passes for currency and dates. -/
theorem C9_get_rates_fixed_query (currency : String) (from_date to_date : PyDate) :
    (get_rates_query currency from_date to_date).2.lookup "sort" =
      some (ParamVal.str "exchangedate") ∧
    (get_rates_query currency from_date to_date).2.lookup "order" =
      some (ParamVal.str "desc") ∧
    (get_rates_query currency from_date to_date).2.lookup "json" =
      some (ParamVal.bool true) := by
  simp [get_rates_query, RequestBuilder.build, ResponseAttributes.exchange_date, List.lookup]

/-- C3 counterexample: the claim says a failed fetch returns a
`FetchError` value carrying the status code and a reason string.  In the
code both fetchers return Python `None` on any non-200 status: at the
concrete 503 and 404 responses below the returned data values are `none`
and equal to each other even though the two responses differ in both
status code and reason, so the returned value carries neither. -/
theorem C3_counterexample :
    (get_rates (fun u p => resp503) "USD" ⟨2025, 1, 1⟩ ⟨2025, 1, 31⟩).1 = none ∧
    (get_json resp503).1 = none ∧
    (get_rates (fun u p => resp503) "USD" ⟨2025, 1, 1⟩ ⟨2025, 1, 31⟩).1 =
      (get_rates (fun u p => resp404) "USD" ⟨2025, 1, 1⟩ ⟨2025, 1, 31⟩).1 ∧
    (get_json resp503).1 = (get_json resp404).1 ∧
    resp503.status_code ≠ resp404.status_code ∧
    resp503.reason ≠ resp404.reason :=
  ⟨rfl, rfl, rfl, rfl, by decide, by decide⟩

/-- C3 amended: on any non-200 HTTP response (503 included) each fetcher
returns no data at all — the data value is `None`, never partial — and
reports the reason and status code by printing them to the console; the
status and reason are not carried in the returned value.  (A
transport-level failure is an uncaught exception in the source, not a
returned value, and is outside this embedding.) -/
theorem C3_error_reporting {α : Type} (res : HttpResponse α)
    (net : String → List (String × ParamVal) → HttpResponse α)
    (currency : String) (from_date to_date : PyDate)
    (hnet : net (get_rates_query currency from_date to_date).1
        (get_rates_query currency from_date to_date).2 = res)
    (h : res.status_code ≠ 200) :
    get_rates net currency from_date to_date = (none, [(res.reason, res.status_code)]) ∧
    get_json res = (none, [(res.reason, res.status_code)]) := by
  constructor
  · show (let url_req := get_rates_query currency from_date to_date
      let r := net url_req.1 url_req.2
      if r.status_code = 200 then (some r.json, []) else (none, [(r.reason, r.status_code)])) = _
    simp only [hnet]
    rw [if_neg h]
  · unfold get_json
    rw [if_neg h]

theorem C3_error_reporting_witness :
    resp503.status_code ≠ 200 ∧
    (get_rates (fun u p => resp503) "USD" ⟨2025, 1, 1⟩ ⟨2025, 1, 31⟩ =
        (none, [("Service Unavailable", 503)]) ∧
      get_json resp503 = (none, [("Service Unavailable", 503)])) :=
  ⟨by decide,
    C3_error_reporting resp503 (fun u p => resp503) "USD" ⟨2025, 1, 1⟩ ⟨2025, 1, 31⟩
      rfl (by decide)⟩

theorem rawDateLt_trans {a b c : PyDate} (h1 : rawDateLt a b) (h2 : rawDateLt b c) :
    rawDateLt a c := by
  unfold rawDateLt at *
  omega

theorem rawDateLt_irrefl (a : PyDate) : ¬ rawDateLt a a := by
  unfold rawDateLt
  omega

theorem rawDateLt_total (a b : PyDate) : a = b ∨ rawDateLt a b ∨ rawDateLt b a := by
  cases a with
  | mk ya ma da =>
    cases b with
    | mk yb mb db =>
      simp only [rawDateLt, PyDate.mk.injEq]
      omega

theorem aggKeyLt_trans (a b c : AggKey) (h1 : aggKeyLt a b) (h2 : aggKeyLt b c) :
    aggKeyLt a c := by
  unfold aggKeyLt at *
  rcases h1 with h1 | ⟨e1, s1⟩ <;> rcases h2 with h2 | ⟨e2, s2⟩
  · exact Or.inl (rawDateLt_trans h1 h2)
  · exact Or.inl (e2 ▸ h1)
  · exact Or.inl (e1 ▸ h2)
  · exact Or.inr ⟨e1.trans e2, lt_trans s1 s2⟩

theorem aggKeyLt_irrefl (a : AggKey) : ¬ aggKeyLt a a := by
  unfold aggKeyLt
  rintro (h | ⟨_, s⟩)
  · exact rawDateLt_irrefl a.1 h
  · exact lt_irrefl _ s

theorem aggKeyLt_total (a b : AggKey) (h : a ≠ b) : aggKeyLt a b ∨ aggKeyLt b a := by
  unfold aggKeyLt
  rcases rawDateLt_total a.1 b.1 with hd | hd | hd
  · have hs : a.2 ≠ b.2 := by
      intro hs
      exact h (Prod.ext hd hs)
    rcases lt_or_gt_of_ne hs with h' | h'
    · exact Or.inl (Or.inr ⟨hd, h'⟩)
    · exact Or.inr (Or.inr ⟨hd.symm, h'⟩)
  · exact Or.inl (Or.inl hd)
  · exact Or.inr (Or.inl hd)

theorem mem_insertKey (k a : AggKey) (l : List AggKey) :
    a ∈ insertKey k l ↔ a = k ∨ a ∈ l := by
  induction l with
  | nil => simp [insertKey]
  | cons x xs ih =>
    unfold insertKey
    by_cases h1 : k = x
    · subst h1
      rw [if_pos rfl]
      simp only [List.mem_cons]
      tauto
    · rw [if_neg h1]
      by_cases h2 : aggKeyLt k x
      · rw [if_pos h2]
        simp only [List.mem_cons]
      · rw [if_neg h2]
        simp only [List.mem_cons, ih]
        tauto

theorem pairwise_insertKey (k : AggKey) (l : List AggKey) (hl : l.Pairwise aggKeyLt) :
    (insertKey k l).Pairwise aggKeyLt := by
  induction l with
  | nil => simp [insertKey]
  | cons x xs ih =>
    rcases List.pairwise_cons.mp hl with ⟨hx, hxs⟩
    unfold insertKey
    by_cases h1 : k = x
    · rw [if_pos h1]
      exact hl
    · rw [if_neg h1]
      by_cases h2 : aggKeyLt k x
      · rw [if_pos h2]
        refine List.pairwise_cons.mpr ⟨?_, hl⟩
        intro b hb
        rcases List.mem_cons.mp hb with rfl | hb'
        · exact h2
        · exact aggKeyLt_trans _ _ _ h2 (hx b hb')
      · rw [if_neg h2]
        refine List.pairwise_cons.mpr ⟨?_, ih hxs⟩
        intro b hb
        rcases (mem_insertKey k b xs).mp hb with hbk | hb'
        · rw [hbk]
          rcases aggKeyLt_total k x h1 with h' | h'
          · exact absurd h' h2
          · exact h'
        · exact hx b hb'

theorem pairwise_sortDedupKeys (l : List AggKey) : (sortDedupKeys l).Pairwise aggKeyLt := by
  induction l with
  | nil => simp [sortDedupKeys]
  | cons k ks ih => exact pairwise_insertKey k _ ih

theorem nodup_sortDedupKeys (l : List AggKey) : (sortDedupKeys l).Nodup := by
  have h := pairwise_sortDedupKeys l
  unfold List.Nodup
  refine List.Pairwise.imp ?_ h
  intro a b hab heq
  exact aggKeyLt_irrefl a (heq ▸ hab)

theorem mem_sortDedupKeys (a : AggKey) (l : List AggKey) :
    a ∈ sortDedupKeys l ↔ a ∈ l := by
  induction l with
  | nil => simp [sortDedupKeys]
  | cons k ks ih => simp [sortDedupKeys, mem_insertKey, ih]

theorem sum_map_zero {β : Type} (l : List β) : (l.map (fun x => (0 : Rat))).sum = 0 := by
  induction l with
  | nil => rfl
  | cons x xs ih => simp [ih]

theorem sum_map_add {β : Type} (l : List β) (f g : β → Rat) :
    (l.map (fun x => f x + g x)).sum = (l.map f).sum + (l.map g).sum := by
  induction l with
  | nil => simp
  | cons x xs ih =>
    simp only [List.map_cons, List.sum_cons, ih]
    ring

theorem sum_map_ite_eq (K : List AggKey) (k0 : AggKey) (v : Rat)
    (hK : K.Nodup) (hmem : k0 ∈ K) :
    (K.map (fun k => if k0 = k then v else 0)).sum = v := by
  induction K with
  | nil => cases hmem
  | cons x xs ih =>
    rcases List.nodup_cons.mp hK with ⟨hnx, hxs⟩
    rcases List.mem_cons.mp hmem with rfl | hmem'
    · simp only [List.map_cons, List.sum_cons, if_pos rfl]
      have hall : ∀ k ∈ xs, (if k0 = k then v else (0 : Rat)) = 0 := by
        intro k hk
        apply if_neg
        intro he
        exact hnx (he ▸ hk)
      calc v + (xs.map (fun k => if k0 = k then v else 0)).sum
          = v + (xs.map (fun x => (0 : Rat))).sum := by
            rw [List.map_congr_left hall]
        _ = v := by rw [sum_map_zero, add_zero]
    · have hx : k0 ≠ x := fun he => hnx (he ▸ hmem')
      simp only [List.map_cons, List.sum_cons, if_neg hx]
      rw [ih hxs hmem', zero_add]

theorem pairGroupSum_nil (k : AggKey) : pairGroupSum [] k = 0 := rfl

theorem pairGroupSum_cons (p : AggKey × Rat) (ps : List (AggKey × Rat)) (k : AggKey) :
    pairGroupSum (p :: ps) k = (if p.1 = k then p.2 else 0) + pairGroupSum ps k := by
  unfold pairGroupSum
  by_cases h : p.1 = k
  · rw [if_pos h]
    simp [List.filter_cons, h]
  · rw [if_neg h]
    simp [List.filter_cons, h]

theorem sum_pairGroupSum (ps : List (AggKey × Rat)) (K : List AggKey)
    (hK : K.Nodup) (hcov : ∀ p ∈ ps, p.1 ∈ K) :
    (K.map (pairGroupSum ps)).sum = (ps.map (fun p => p.2)).sum := by
  induction ps with
  | nil =>
    have : (K.map (pairGroupSum [])).sum = (K.map (fun x => (0 : Rat))).sum := by
      rw [List.map_congr_left (fun k hk => pairGroupSum_nil k)]
    rw [this, sum_map_zero]
    rfl
  | cons p ps' ih =>
    have hcov' : ∀ q ∈ ps', q.1 ∈ K := fun q hq => hcov q (List.mem_cons_of_mem _ hq)
    have hp : p.1 ∈ K := hcov p (List.mem_cons_self _ _)
    have step : ∀ k ∈ K, pairGroupSum (p :: ps') k =
        (fun k => (if p.1 = k then p.2 else 0) + pairGroupSum ps' k) k :=
      fun k hk => pairGroupSum_cons p ps' k
    rw [List.map_congr_left step, sum_map_add, sum_map_ite_eq K p.1 p.2 hK hp, ih hcov']
    simp

theorem ledgerView_cons_none (r : AggRow) (rs : List AggRow) (h : rowKey? r = none) :
    ledgerView (r :: rs) = ledgerView rs := by
  unfold ledgerView
  simp [List.filterMap_cons, h]

theorem ledgerView_cons_some (r : AggRow) (rs : List AggRow) (k : AggKey)
    (h : rowKey? r = some k) :
    ledgerView (r :: rs) = (k, r.2.pay_val.getD 0) :: ledgerView rs := by
  unfold ledgerView
  simp [List.filterMap_cons, h]

theorem ledgerView_keys (rows : List AggRow) :
    rows.filterMap rowKey? = (ledgerView rows).map (fun p => p.1) := by
  induction rows with
  | nil => rfl
  | cons r rs ih =>
    cases hk : rowKey? r with
    | none =>
      rw [ledgerView_cons_none r rs hk]
      simp [List.filterMap_cons, hk, ih]
    | some k =>
      rw [ledgerView_cons_some r rs k hk]
      simp [List.filterMap_cons, hk, ih]

theorem groupTotal_eq_pairGroupSum (rows : List AggRow) (k : AggKey) :
    groupTotal rows k = pairGroupSum (ledgerView rows) k := by
  induction rows with
  | nil => rfl
  | cons r rs ih =>
    cases hk : rowKey? r with
    | none =>
      rw [ledgerView_cons_none r rs hk]
      unfold groupTotal
      unfold groupTotal at ih
      simp [List.filter_cons, hk, ih]
    | some k0 =>
      rw [ledgerView_cons_some r rs k0 hk, pairGroupSum_cons]
      unfold groupTotal
      unfold groupTotal at ih
      by_cases he : k0 = k
      · subst he
        rw [if_pos rfl]
        cases hv : r.2.pay_val with
        | none =>
          simp [List.filter_cons, List.filterMap_cons, hk, hv, ih]
        | some v =>
          simp [List.filter_cons, List.filterMap_cons, hk, hv, ih]
      · rw [if_neg he]
        simp [List.filter_cons, hk, he, ih]

theorem groupRows_ext (rows rows' : List AggRow)
    (h : ledgerView rows = ledgerView rows') :
    groupRows rows = groupRows rows' := by
  unfold groupRows
  rw [ledgerView_keys, ledgerView_keys, h]
  apply List.map_congr_left
  intro k hk
  rw [groupTotal_eq_pairGroupSum rows k, groupTotal_eq_pairGroupSum rows' k, h]

theorem show_payments_ext (bonds bonds' : List BondRecord) (ip : Bool) (today : PyDate)
    (h : ledgerView (bonds.flatMap explodePayments) =
      ledgerView (bonds'.flatMap explodePayments)) :
    show_payments bonds ip today = show_payments bonds' ip today := by
  unfold show_payments
  rw [groupRows_ext _ _ h]

theorem ledgerView_append (l1 l2 : List AggRow) :
    ledgerView (l1 ++ l2) = ledgerView l1 ++ ledgerView l2 := by
  unfold ledgerView
  rw [List.filterMap_append]

theorem rowKey?_none_of_date_none (b : BondRecord) (q : PaymentEvent)
    (h : q.pay_date = none) : rowKey? (b, q) = none := by
  cases hv : b.val_code <;> simp [rowKey?, h, hv]

theorem rowKey?_none_of_valcode_none (b : BondRecord) (q : PaymentEvent)
    (h : b.val_code = none) : rowKey? (b, q) = none := by
  cases hd : q.pay_date <;> simp [rowKey?, h, hd]

theorem filterMap_filter_of_none {α β : Type} (f : α → Option β) (q : α → Bool)
    (l : List α) (h : ∀ a ∈ l, q a = false → f a = none) :
    (l.filter q).filterMap f = l.filterMap f := by
  induction l with
  | nil => rfl
  | cons x xs ih =>
    have hxs : ∀ a ∈ xs, q a = false → f a = none :=
      fun a ha => h a (List.mem_cons_of_mem _ ha)
    cases hq : q x with
    | true => simp [List.filter_cons, hq, List.filterMap_cons, ih hxs]
    | false =>
      simp [List.filter_cons, hq, List.filterMap_cons,
        h x (List.mem_cons_self _ _) hq, ih hxs]

theorem filterMap_none_nil {α β : Type} (f : α → Option β) (l : List α)
    (h : ∀ a ∈ l, f a = none) : l.filterMap f = [] := by
  induction l with
  | nil => rfl
  | cons x xs ih =>
    simp [List.filterMap_cons, h x (List.mem_cons_self _ _),
      ih (fun a ha => h a (List.mem_cons_of_mem _ ha))]

theorem filterMap_congr_mem {α β : Type} (f g : α → Option β) (l : List α)
    (h : ∀ a ∈ l, f a = g a) : l.filterMap f = l.filterMap g := by
  induction l with
  | nil => rfl
  | cons x xs ih =>
    rw [List.filterMap_cons, List.filterMap_cons, h x (List.mem_cons_self _ _),
      ih (fun a ha => h a (List.mem_cons_of_mem _ ha))]

theorem ledgerView_explode (b : BondRecord) :
    ledgerView (explodePayments b) =
      b.payments.filterMap
        (fun q => (rowKey? (b, q)).map (fun k => (k, q.pay_val.getD 0))) := by
  unfold explodePayments
  cases hps : b.payments with
  | nil =>
    simp [ledgerView, rowKey?_none_of_date_none b ⟨none, none, none⟩ rfl]
  | cons p ps =>
    unfold ledgerView
    rw [List.filterMap_map]
    rfl

theorem ledgerView_explode_valcode_none (b : BondRecord) (h : b.val_code = none) :
    ledgerView (explodePayments b) = [] := by
  rw [ledgerView_explode]
  apply filterMap_none_nil
  intro q hq
  rw [rowKey?_none_of_valcode_none b q h]
  rfl

theorem ledgerView_explode_scrub (b : BondRecord) :
    ledgerView (explodePayments (scrubDates b)) = ledgerView (explodePayments b) := by
  rw [ledgerView_explode, ledgerView_explode]
  have hkey : ∀ q : PaymentEvent, rowKey? (scrubDates b, q) = rowKey? (b, q) :=
    fun q => rfl
  have hfun : ∀ q ∈ (scrubDates b).payments,
      (rowKey? (scrubDates b, q)).map (fun k => (k, q.pay_val.getD 0)) =
        (rowKey? (b, q)).map (fun k => (k, q.pay_val.getD 0)) := by
    intro q hq
    rw [hkey q]
  rw [filterMap_congr_mem _ _ _ hfun]
  show (b.payments.filter (fun p => p.pay_date.isSome)).filterMap _ = _
  apply filterMap_filter_of_none
  intro q hq hfalse
  have hnone : q.pay_date = none := by
    cases hd : q.pay_date
    · rfl
    · rw [hd] at hfalse
      simp at hfalse
  rw [rowKey?_none_of_date_none b q hnone]
  rfl

theorem ledgerView_explode_fill (b : BondRecord) :
    ledgerView (explodePayments (fillMissingVals b)) = ledgerView (explodePayments b) := by
  rw [ledgerView_explode, ledgerView_explode]
  show ((b.payments.map _).filterMap _) = _
  rw [List.filterMap_map]
  apply filterMap_congr_mem
  intro q hq
  rfl

theorem ledgerView_flatMap_map (bonds : List BondRecord) (t : BondRecord → BondRecord)
    (h : ∀ b : BondRecord, ledgerView (explodePayments (t b)) = ledgerView (explodePayments b)) :
    ledgerView ((bonds.map t).flatMap explodePayments) =
      ledgerView (bonds.flatMap explodePayments) := by
  induction bonds with
  | nil => rfl
  | cons b bs ih =>
    rw [List.map_cons, List.flatMap_cons, List.flatMap_cons, ledgerView_append,
      ledgerView_append, h b, ih]

theorem ledgerView_flatMap_filter_valcode (bonds : List BondRecord) :
    ledgerView ((bonds.filter (fun b => b.val_code.isSome)).flatMap explodePayments) =
      ledgerView (bonds.flatMap explodePayments) := by
  induction bonds with
  | nil => rfl
  | cons b bs ih =>
    cases hv : b.val_code with
    | some c =>
      have : b.val_code.isSome = true := by rw [hv]; rfl
      rw [List.filter_cons, if_pos this, List.flatMap_cons, List.flatMap_cons,
        ledgerView_append, ledgerView_append, ih]
    | none =>
      have : ¬ (b.val_code.isSome = true) := by rw [hv]; simp
      rw [List.filter_cons, if_neg this, List.flatMap_cons, ledgerView_append,
        ledgerView_explode_valcode_none b hv, List.nil_append, ih]

theorem ledgerView_explode_vals (b : BondRecord) (hw : wellFormedBond b) :
    (ledgerView (explodePayments b)).map (fun p => p.2) =
      b.payments.map (fun p => p.pay_val.getD 0) := by
  obtain ⟨hvc, hev⟩ := hw
  obtain ⟨c, hc⟩ := Option.isSome_iff_exists.mp hvc
  rw [ledgerView_explode]
  have H : ∀ l : List PaymentEvent,
      (∀ p ∈ l, p.pay_date.isSome = true ∧ p.pay_val.isSome = true) →
      (l.filterMap
          (fun q => (rowKey? (b, q)).map (fun k => (k, q.pay_val.getD 0)))).map
        (fun p => p.2) = l.map (fun p => p.pay_val.getD 0) := by
    intro l
    induction l with
    | nil => intro _; rfl
    | cons q l' ih =>
      intro hl
      obtain ⟨hqd, hqv⟩ := hl q (List.mem_cons_self _ _)
      obtain ⟨d, hd⟩ := Option.isSome_iff_exists.mp hqd
      have hkey : rowKey? (b, q) = some (d, c) := by
        unfold rowKey?
        rw [hd, hc]
      rw [List.filterMap_cons, hkey]
      simp only [Option.map_some']
      rw [List.map_cons, List.map_cons,
        ih (fun p hp => hl p (List.mem_cons_of_mem _ hp))]
  exact H b.payments hev

theorem show_payments_true_eq (bonds : List BondRecord) (today : PyDate) :
    show_payments bonds true today = groupRows (bonds.flatMap explodePayments) := rfl

theorem ledgerView_flatMap_vals (bs : List BondRecord)
    (hbs : ∀ b ∈ bs, wellFormedBond b) :
    ((ledgerView (bs.flatMap explodePayments)).map (fun p => p.2)).sum =
      totalCashFlow bs := by
  induction bs with
  | nil => rfl
  | cons b bs' ih =>
    rw [List.flatMap_cons, ledgerView_append, List.map_append, List.sum_append,
      ledgerView_explode_vals b (hbs b (List.mem_cons_self _ _)),
      ih (fun x hx => hbs x (List.mem_cons_of_mem _ hx))]
    rfl

/-- C2: with the horizon filter off (`include_paid = true`) and every
bond well-formed, the total of the aggregated `pay_per_bond` column
equals the sum of `pay_val` over every payment event of every bond:
the aggregation conserves total cash flow. -/
theorem C2_conservation (bonds : List BondRecord) (today : PyDate)
    (hw : ∀ b ∈ bonds, wellFormedBond b) :
    ((show_payments bonds true today).map (fun r => r.pay_per_bond)).sum =
      totalCashFlow bonds := by
  rw [show_payments_true_eq]
  have h2 : (groupRows (bonds.flatMap explodePayments)).map (fun r => r.pay_per_bond) =
      (sortDedupKeys ((bonds.flatMap explodePayments).filterMap rowKey?)).map
        (fun k => groupTotal (bonds.flatMap explodePayments) k) := by
    unfold groupRows
    rw [List.map_map]
    rfl
  rw [h2]
  rw [List.map_congr_left
    (fun k hk => groupTotal_eq_pairGroupSum (bonds.flatMap explodePayments) k)]
  rw [ledgerView_keys]
  rw [sum_pairGroupSum (ledgerView (bonds.flatMap explodePayments)) _
    (nodup_sortDedupKeys _)
    (fun p hp => (mem_sortDedupKeys _ _).mpr (List.mem_map_of_mem _ hp))]
  exact ledgerView_flatMap_vals bonds hw

theorem C2_conservation_witness :
    (∀ b ∈ C2bonds, wellFormedBond b) ∧
    ((show_payments C2bonds true ⟨2024, 1, 1⟩).map (fun r => r.pay_per_bond)).sum =
      totalCashFlow C2bonds :=
  ⟨by decide, C2_conservation C2bonds ⟨2024, 1, 1⟩ (by decide)⟩

/-- C4 counterexample: the claim says an input containing a payment event
that lacks a required field makes the whole aggregation fail with a
`MalformedRecordError` and produce no ledger.  On `C4bonds` — whose first
event has no `pay_date` — the code produces a complete one-row ledger:
the malformed event is silently dropped by `groupby`'s NaN-key handling
and its amount `10` is missing from the total, which is `50`, not `60`. -/
theorem C4_counterexample :
    show_payments C4bonds true ⟨2024, 1, 1⟩ = [⟨⟨2025, 6, 1⟩, "UAH", 50⟩] ∧
    ((show_payments C4bonds true ⟨2024, 1, 1⟩).map (fun r => r.pay_per_bond)).sum = 50 := by
  constructor <;>
    simp [C4bonds, show_payments, groupRows, sortDedupKeys, insertKey, groupTotal,
      explodePayments, rowKey?, aggKeyLt, rawDateLt, List.filter_cons, List.filter_nil,
      List.filterMap_cons, List.filterMap_nil, List.sum_cons, List.sum_nil, reduceCtorEq]

/-- C4 amended: a malformed `PaymentEvent` never fails the aggregation —
there is no `MalformedRecordError` in the code.  Instead the aggregation
output is unchanged when events lacking a `pay_date` are removed, when
bonds lacking a `val_code` are removed, and when a missing `pay_val` is
replaced by an explicit `0`: an event missing its date (or a bond missing
its currency) is silently dropped by `groupby`'s NaN-key handling, and a
missing amount is skipped by the NaN-skipping sum, while the remaining
events are aggregated into a normal ledger. -/
theorem C4_silent_skip (bonds : List BondRecord) (include_paid : Bool) (today : PyDate) :
    show_payments bonds include_paid today =
      show_payments (bonds.map scrubDates) include_paid today ∧
    show_payments bonds include_paid today =
      show_payments (bonds.filter (fun b => b.val_code.isSome)) include_paid today ∧
    show_payments bonds include_paid today =
      show_payments (bonds.map fillMissingVals) include_paid today := by
  refine ⟨?_, ?_, ?_⟩
  · exact (show_payments_ext _ bonds include_paid today
      (ledgerView_flatMap_map bonds scrubDates ledgerView_explode_scrub)).symm
  · exact (show_payments_ext _ bonds include_paid today
      (ledgerView_flatMap_filter_valcode bonds)).symm
  · exact (show_payments_ext _ bonds include_paid today
      (ledgerView_flatMap_map bonds fillMissingVals ledgerView_explode_fill)).symm

/-- C1: the claim says the ledger printed by `show_payments` is sorted
ascending by (calendar payment date, currency code) with no duplicate
keys.  It is not: the final `df.sort_values(by=[pay_date, val_code])` in
the source discards its result (it is never assigned back to `df`), so
the output keeps the `groupby` order of the raw `"DD.MM.YYYY"` strings.
On `C1bonds` the row for raw date `"01.01.2026"` precedes the row for
`"02.02.2025"` although 2025-02-02 is chronologically earlier, so the
printed ledger violates the claimed order. -/
theorem C1_output_order_bug :
    show_payments C1bonds true ⟨2024, 1, 1⟩ =
      [⟨⟨2026, 1, 1⟩, "UAH", 100⟩, ⟨⟨2025, 2, 2⟩, "UAH", 50⟩] ∧
    ledgerSortedChrono (show_payments C1bonds true ⟨2024, 1, 1⟩) = false := by
  constructor <;>
    simp [C1bonds, show_payments, groupRows, sortDedupKeys, insertKey, groupTotal,
      explodePayments, rowKey?, aggKeyLt, rawDateLt, ledgerSortedChrono, chronoLt,
      List.filter_cons, List.filter_nil, List.filterMap_cons, List.filterMap_nil,
      List.sum_cons, List.sum_nil, reduceCtorEq]

/-- C5: the horizon filter.  When `include_paid` is false the output is
exactly the grouped frame restricted to rows whose (calendar) payment
date is on or after `today` — a row is dropped precisely when its date is
strictly before `today` — and when `include_paid` is true no row is
dropped by the filter. -/
theorem C5_horizon_filter (bonds : List BondRecord) (today : PyDate) :
    show_payments bonds false today =
      (show_payments bonds true today).filter
        (fun r => decide (chronoLe today r.pay_date)) ∧
    ∀ r : LedgerRow,
      (r ∈ show_payments bonds false today ↔
        r ∈ show_payments bonds true today ∧ chronoLe today r.pay_date) ∧
      (r ∈ show_payments bonds false today ↔
        r ∈ show_payments bonds true today ∧ ¬ chronoLt r.pay_date today) := by
  have h1 : show_payments bonds false today =
      (show_payments bonds true today).filter
        (fun r => decide (chronoLe today r.pay_date)) := rfl
  refine ⟨h1, fun r => ⟨?_, ?_⟩⟩
  · rw [h1]
    simp [List.mem_filter]
  · rw [h1]
    simp [List.mem_filter, chronoLe_iff_not_chronoLt]

theorem filterIsinsGo_ok (isins : List String) :
    ∀ data : List BondRecord, (∀ b ∈ data, b.cpcode.isSome = true) →
      filterIsinsGo isins data = Except.ok (data.filter (cpcodeMem isins)) := by
  intro data
  induction data with
  | nil => intro _; rfl
  | cons b rest ih =>
    intro hall
    obtain ⟨c, hc⟩ := Option.isSome_iff_exists.mp (hall b (List.mem_cons_self _ _))
    have ihr := ih (fun x hx => hall x (List.mem_cons_of_mem _ hx))
    by_cases hm : c ∈ isins
    · have hcm : cpcodeMem isins b = true := by
        unfold cpcodeMem
        rw [hc]
        simp [hm]
      simp [filterIsinsGo, hc, ihr, List.filter_cons, hcm, hm]
    · have hcm : cpcodeMem isins b = false := by
        unfold cpcodeMem
        rw [hc]
        simp [hm]
      simp [filterIsinsGo, hc, ihr, List.filter_cons, hcm, hm]

theorem filterIsinsGo_error (isins : List String) :
    ∀ (data : List BondRecord) (b : BondRecord), b ∈ data → b.cpcode = none →
      filterIsinsGo isins data = Except.error "KeyError: cpcode" := by
  intro data
  induction data with
  | nil => intro b hb _; cases hb
  | cons x rest ih =>
    intro b hb hc
    rcases List.mem_cons.mp hb with hbx | hmem
    · have hx : x.cpcode = none := by
        rw [← hbx]
        exact hc
      simp [filterIsinsGo, hx]
    · cases hx : x.cpcode with
      | none => simp [filterIsinsGo, hx]
      | some c => simp [filterIsinsGo, hx, ih b hmem hc]

/-- C7: the Record Filter.  With an absent (`None`) or empty id list the
input is returned unchanged.  With a non-empty id list over records that
all carry a `cpcode`, the result is exactly `data.filter`, i.e. the
subsequence (a sublist, preserving relative order, each surviving record
unchanged) of records whose `cpcode` belongs to the id list; ids matching
no record simply select nothing and raise no error. -/
theorem C7_record_filter (data : List BondRecord) (isins : List String)
    (hne : isins ≠ []) (hall : ∀ b ∈ data, b.cpcode.isSome = true) :
    filter_isins data none = Except.ok data ∧
    filter_isins data (some []) = Except.ok data ∧
    filter_isins data (some isins) = Except.ok (data.filter (cpcodeMem isins)) ∧
    (data.filter (cpcodeMem isins)).Sublist data := by
  refine ⟨rfl, rfl, ?_, List.filter_sublist data⟩
  show (if isins = [] then Except.ok data else filterIsinsGo isins data) = _
  rw [if_neg hne]
  exact filterIsinsGo_ok isins data hall

theorem C7_record_filter_witness :
    (["UA1"] : List String) ≠ [] ∧
    (∀ b ∈ C7records, b.cpcode.isSome = true) ∧
    (filter_isins C7records none = Except.ok C7records ∧
     filter_isins C7records (some []) = Except.ok C7records ∧
     filter_isins C7records (some ["UA1"]) =
       Except.ok (C7records.filter (cpcodeMem ["UA1"])) ∧
     (C7records.filter (cpcodeMem ["UA1"])).Sublist C7records) ∧
    C7records.filter (cpcodeMem ["UA1"]) =
      [{ cpcode := some "UA1", val_code := some "UAH",
         payments := [⟨some ⟨2025, 6, 1⟩, some 1, some 100⟩] }] :=
  ⟨by decide, by decide,
    C7_record_filter C7records ["UA1"] (by decide) (by decide), by decide⟩

/-- C10: with a non-empty id list, `filter_isins` reads `item['cpcode']`
of the records as it walks the list, so if any input record lacks that
field the whole call fails with a `KeyError` — the record is neither
skipped nor passed through, and no partial output is returned. -/
theorem C10_missing_cpcode (data : List BondRecord) (isins : List String)
    (b : BondRecord) (hne : isins ≠ []) (hb : b ∈ data) (hc : b.cpcode = none) :
    filter_isins data (some isins) = Except.error "KeyError: cpcode" := by
  show (if isins = [] then Except.ok data else filterIsinsGo isins data) = _
  rw [if_neg hne]
  exact filterIsinsGo_error isins data b hb hc

theorem C10_missing_cpcode_witness :
    (["UA1"] : List String) ≠ [] ∧
    ({ cpcode := none, val_code := some "UAH", payments := [] } : BondRecord) ∈ C10records ∧
    ({ cpcode := none, val_code := some "UAH", payments := [] } : BondRecord).cpcode = none ∧
    filter_isins C10records (some ["UA1"]) = Except.error "KeyError: cpcode" :=
  ⟨by decide, by decide, rfl,
    C10_missing_cpcode C10records ["UA1"]
      { cpcode := none, val_code := some "UAH", payments := [] }
      (by decide) (by decide) rfl⟩
